import Mathlib

/-!
Verification of the `mcp-code-indexer` repository: a shallow embedding of its
chunkers, structural analyzer, snapshot-store indexing pipeline, retrieval
helpers and path validation, together with theorems settling the frozen
claims about the natural-language specification.

Modelling conventions:
* Python strings become Lean `String`s; `str.splitlines()` is modelled for
  LF-separated text, `str.strip()` strips the ASCII whitespace characters.
* SQLite tables become Lean lists of row structures, in insertion order;
  `DELETE` is `List.filter`, `INSERT OR REPLACE` removes primary-key
  conflicts and appends, `INSERT OR IGNORE` appends only without conflict.
* SHA-256 digests and UUIDv5 ids are modelled by injective stand-ins that
  keep the hashed key itself (collision-freeness is assumed).
* The Python `ast` parser is an external collaborator; a parse is modelled
  as an `Option` value (`none` = `SyntaxError`), and the AST is restricted
  to the node shapes the analyzer dispatches on.
-/

namespace MCI

/-- Python whitespace stripped by `str.strip()` (ASCII subset). -/
def isPyWhitespace (c : Char) : Bool :=
  c = ' ' || c = '\t' || c = '\n' || c = '\r' || c = '\x0b' || c = '\x0c'

/-- Model of Python `str.strip()`. -/
def pyStrip (s : String) : String :=
  String.mk (((s.data.dropWhile isPyWhitespace).reverse.dropWhile isPyWhitespace).reverse)

/-- Standard split of a character list on a separator (the result list is
always nonempty). -/
def splitCharsOn (sep : Char) : List Char → List (List Char)
  | [] => [[]]
  | c :: rest =>
      let r := splitCharsOn sep rest
      if c = sep then [] :: r
      else
        match r with
        | [] => [[c]]
        | h :: t => (c :: h) :: t

/-- Python `s.split(sep)` for a one-character separator. -/
def splitOnChar (sep : Char) (s : String) : List String :=
  (splitCharsOn sep s.data).map String.mk

/-- Model of Python `str.splitlines()` for LF-separated text:
`""` gives `[]`, and a trailing newline does not create a final empty line. -/
def pySplitlines (s : String) : List String :=
  if s = "" then []
  else if s.data.getLast? = some '\n' then (splitOnChar '\n' s).dropLast
  else splitOnChar '\n' s

/-- Python slice `s[:n]` (code-point prefix). -/
def pyTake (s : String) (n : Nat) : String :=
  String.mk (s.data.take n)

/-- Python `s.startswith(pre)`. -/
def strStartsWith (s pre : String) : Bool :=
  pre.data.isPrefixOf s.data

/-- `"\n".join(lines)` from the source. -/
def joinLines (lines : List String) : String :=
  String.intercalate "\n" lines

/-- `line[start:stop]` slicing on strings (code-point indices). -/
def strSlice (s : String) (start stop : Nat) : String :=
  String.mk ((s.data.drop start).take (stop - start))

/-- `to_name.split(".")[-1]`: the final dotted segment of a callee name. -/
def lastSegment (s : String) : String :=
  (splitOnChar '.' s).getLastD s

theorem pyStrip_length_le (s : String) : (pyStrip s).length ≤ s.length := by
  show (((s.data.dropWhile isPyWhitespace).reverse.dropWhile isPyWhitespace).reverse).length
      ≤ s.data.length
  rw [List.length_reverse]
  calc ((s.data.dropWhile isPyWhitespace).reverse.dropWhile isPyWhitespace).length
      ≤ (s.data.dropWhile isPyWhitespace).reverse.length :=
        (List.dropWhile_sublist _).length_le
    _ = (s.data.dropWhile isPyWhitespace).length := List.length_reverse _
    _ ≤ s.data.length := (List.dropWhile_sublist _).length_le

/-- `chunkers.Chunk` dataclass. -/
structure Chunk where
  file_path : String
  language : String
  chunk_type : String
  symbol_name : Option String
  start_line : Nat
  end_line : Nat
  text : String
deriving DecidableEq, Repr

/-- The inner `flush` of `chunkers._window_chunks`: emit the buffered lines as
a `"window"` chunk unless their stripped text is empty. -/
def windowFlush (rel lang : String) (symbol : Option String)
    (bufStart curLineExclusive : Nat) (buf : List String) (out : List Chunk) : List Chunk :=
  let t := pyStrip (joinLines buf)
  if t = "" then out
  else out ++ [⟨rel, lang, "window", symbol, bufStart, curLineExclusive - 1, t⟩]

/-- The `for line in lines` loop of `chunkers._window_chunks`, with its mutable
`buf_start`/`cur_line`/`buf`/`out` state threaded explicitly. -/
def windowGo (rel lang : String) (symbol : Option String) (maxChars : Nat) :
    List String → Nat → Nat → List String → List Chunk → List Chunk
  | [], bufStart, curLine, buf, out =>
      if buf = [] then out else windowFlush rel lang symbol bufStart curLine buf out
  | line :: rest, bufStart, curLine, buf, out =>
      let prospective := joinLines (buf ++ [line])
      if buf ≠ [] ∧ prospective.length > maxChars then
        let out' := windowFlush rel lang symbol bufStart curLine buf out
        windowGo rel lang symbol maxChars rest curLine (curLine + 1) [line] out'
      else
        windowGo rel lang symbol maxChars rest bufStart (curLine + 1) (buf ++ [line]) out

/-- `chunkers._window_chunks`: split an oversized definition's lines into
`"window"` chunks.  The `chunk_type` parameter is accepted but, as in the
source, every emitted chunk is tagged `"window"`. -/
def _window_chunks (rel lang chunk_type : String) (symbol : Option String)
    (lines : List String) (start_line : Nat) (maxChars : Nat) : List Chunk :=
  let _ := chunk_type
  windowGo rel lang symbol maxChars lines start_line start_line [] []

/-- One iteration body of the `while i < n` loop of `chunkers.chunk_fallback`,
fuelled because the Python loop diverges when `overlap_lines ≥ max_lines`
(`none` models non-termination). -/
def fallbackGo (rel language : String) (lines : List String) (maxLines overlap : Nat) :
    Nat → Nat → List Chunk → Option (List Chunk)
  | 0, _, _ => none
  | fuel + 1, i, out =>
      let n := lines.length
      if i < n then
        let j := min n (i + maxLines)
        let window := pyStrip (joinLines ((lines.drop i).take (j - i)))
        let out' := if window = "" then out
          else out ++ [⟨rel, language, "window", none, i + 1, j, window⟩]
        if j ≥ n then some out'
        else fallbackGo rel language lines maxLines overlap fuel (j - overlap) out'
      else some out

/-- `chunkers.chunk_fallback`: fixed-size line windows with trailing overlap. -/
def chunk_fallback (rel text language : String) (maxLines overlap : Nat) :
    Option (List Chunk) :=
  let lines := pySplitlines text
  fallbackGo rel language lines maxLines overlap (lines.length + 1) 0 []

/-- The sequence of `(i, j)` line-index windows generated by the
`chunk_fallback` loop (including windows later skipped as whitespace-only). -/
def fallbackTrace (n maxLines overlap : Nat) : Nat → Nat → List (Nat × Nat)
  | 0, _ => []
  | fuel + 1, i =>
      if i < n then
        let j := min n (i + maxLines)
        if j ≥ n then [(i, j)]
        else (i, j) :: fallbackTrace n maxLines overlap fuel (j - overlap)
      else []

/-- The chunks a generated window list gives rise to (whitespace-only windows
are skipped), mirroring the emission in `chunk_fallback`. -/
def traceChunks (rel language : String) (lines : List String) :
    List (Nat × Nat) → List Chunk
  | [] => []
  | (i, j) :: rest =>
      let window := pyStrip (joinLines ((lines.drop i).take (j - i)))
      if window = "" then traceChunks rel language lines rest
      else ⟨rel, language, "window", none, i + 1, j, window⟩ :: traceChunks rel language lines rest

/-!  ## Structural analyzer (`py_analyze.py`)  -/

/-- The Python AST node shapes `py_analyze.Analyzer` dispatches on.  Any node
kind without a dedicated `visit_*` method is modelled by `other`, whose
children are traversed by `generic_visit`.  `nameNode`'s flag records whether
the name occurs in `ast.Load` context. -/
inductive PyAst where
  | classDef (name : String) (lineno endLineno : Nat) (body : List PyAst)
  | funcDef (isAsync : Bool) (name : String) (lineno endLineno : Nat) (body : List PyAst)
  | callNode (func : PyAst) (args : List PyAst) (lineno : Nat)
  | nameNode (id : String) (isLoad : Bool) (lineno col : Nat)
  | attrNode (value : PyAst) (attr : String)
  | other (children : List PyAst)
deriving Repr

/-- `py_analyze.PyDef`. -/
structure PyDef where
  name : String
  qualname : String
  kind : String
  start_line : Nat
  end_line : Nat
deriving DecidableEq, Repr

/-- `py_analyze.PyRef`. -/
structure PyRef where
  name : String
  line : Nat
  col : Nat
  context : String
deriving DecidableEq, Repr

/-- `py_analyze.PyCall`. -/
structure PyCall where
  caller_qualname : String
  callee : String
  line : Nat
deriving DecidableEq, Repr

/-- `py_analyze._get_line`. -/
def _get_line (lines : List String) (lineno : Nat) : String :=
  if 1 ≤ lineno ∧ lineno ≤ lines.length then lines.getD (lineno - 1) "" else ""

/-- `py_analyze._callee_str`: render a callee as a dotted access path when it
is a simple name or attribute chain, else the placeholder token. -/
def _callee_str : PyAst → String
  | .nameNode id _ _ _ => id
  | .attrNode value attr =>
      let rec chain : PyAst → List String
        | .attrNode v a => a :: chain v
        | .nameNode id _ _ _ => [id]
        | _ => []
      String.intercalate "." (attr :: chain value).reverse
  | _ => "<call>"

/-- The mutable visitor state of `py_analyze.Analyzer`. -/
structure AnState where
  defs : List PyDef
  refs : List PyRef
  calls : List PyCall
  scope : List String
  currentCallable : List String
deriving Repr

/-- `Analyzer._qualname`. -/
def qualnameOf (scope : List String) (name : String) : String :=
  if scope = [] then name else String.intercalate "." (scope ++ [name])

/-- The reference record built by `Analyzer.visit_Name` in `ast.Load` context:
a bounded slice of the source line around the name. -/
def mkRef (lines : List String) (id : String) (lineno col : Nat) : PyRef :=
  let lt := _get_line lines lineno
  let start := col - 40
  let stop := min lt.length (col + id.length + 40)
  ⟨id, lineno, col, strSlice lt start stop⟩

mutual

/-- `Analyzer.visit` on a single node: `visit_ClassDef` / `visit_FunctionDef`/
`visit_AsyncFunctionDef` (via `_visit_function`) / `visit_Name` /
`visit_Call`, and `generic_visit` for everything else.  Scope and
current-callable stacks are pushed before visiting children and popped
after, exactly as in the source. -/
def visitNode (lines : List String) (st : AnState) : PyAst → AnState
  | .classDef name lineno endLineno body =>
      let qn := qualnameOf st.scope name
      let st1 := { st with
        defs := st.defs ++ [⟨name, qn, "class", lineno, endLineno⟩],
        scope := st.scope ++ [name] }
      let st2 := visitNodes lines st1 body
      { st2 with scope := st.scope }
  | .funcDef _ name lineno endLineno body =>
      let qn := qualnameOf st.scope name
      let kind := if st.scope = [] then "function" else "method"
      let st1 := { st with
        defs := st.defs ++ [⟨name, qn, kind, lineno, endLineno⟩],
        scope := st.scope ++ [name],
        currentCallable := st.currentCallable ++ [qn] }
      let st2 := visitNodes lines st1 body
      { st2 with scope := st.scope, currentCallable := st.currentCallable }
  | .callNode func args lineno =>
      let st1 :=
        if st.currentCallable ≠ [] then
          { st with calls := st.calls ++
              [⟨st.currentCallable.getLastD "", _callee_str func, lineno⟩] }
        else st
      visitNodes lines (visitNode lines st1 func) args
  | .nameNode id isLoad lineno col =>
      if isLoad then { st with refs := st.refs ++ [mkRef lines id lineno col] } else st
  | .attrNode value _ => visitNode lines st value
  | .other children => visitNodes lines st children

/-- `generic_visit` over a child list. -/
def visitNodes (lines : List String) (st : AnState) : List PyAst → AnState
  | [] => st
  | n :: ns => visitNodes lines (visitNode lines st n) ns

end

/-- `py_analyze.analyze_python_source`: on parse failure (`parsed = none`)
return empty definition/reference/call lists; otherwise run the visitor over
the module body. -/
def analyze_python_source (parsed : Option (List PyAst)) (text : String) :
    List PyDef × List PyRef × List PyCall :=
  match parsed with
  | none => ([], [], [])
  | some body =>
      let st := visitNodes (pySplitlines text) ⟨[], [], [], [], []⟩ body
      (st.defs, st.refs, st.calls)

/-!  ## Python chunker (`chunkers.chunk_python`)  -/

/-- The top-level `isinstance(node, (FunctionDef, AsyncFunctionDef, ClassDef))`
dispatch of `chunk_python`: name, kind, line range of a definition node. -/
def topDefInfo : PyAst → Option (String × String × Nat × Nat)
  | .classDef name lineno endLineno _ => some (name, "class", lineno, endLineno)
  | .funcDef _ name lineno endLineno _ => some (name, "function", lineno, endLineno)
  | _ => none

/-- `chunkers.chunk_python`: a leading module chunk plus one chunk per
top-level definition, oversized definitions split into windows.  On parse
failure (`parsed = none`) fall back to fixed-window chunking with
`max_lines=220, overlap_lines=40` and no symbols.  `none` overall models a
diverging fallback loop (impossible here, see `chunk_fallback_total`). -/
def chunk_python (rel_path text : String) (max_chunk_chars : Nat)
    (parsed : Option (List PyAst)) :
    Option (List Chunk × List (String × String × Nat × Nat)) :=
  match parsed with
  | none => (chunk_fallback rel_path text "python" 220 40).map (fun cs => (cs, []))
  | some body =>
      let lines := pySplitlines text
      let head_end := min lines.length 80
      let head_text := pyStrip (joinLines (lines.take head_end))
      let headChunks : List Chunk :=
        if head_text = "" then []
        else [⟨rel_path, "python", "module", none, 1, head_end, pyTake head_text max_chunk_chars⟩]
      let step : List Chunk × List (String × String × Nat × Nat) → PyAst →
          List Chunk × List (String × String × Nat × Nat) := fun (cs, syms) node =>
        match topDefInfo node with
        | none => (cs, syms)
        | some (name, kind, start, «end») =>
            let name := if name = "" then "<unknown>" else name
            let syms' := syms ++ [(name, kind, start, «end»)]
            let seg_lines := (lines.drop (start - 1)).take («end» - (start - 1))
            let seg_text := pyStrip (joinLines seg_lines)
            if seg_text = "" then (cs, syms')
            else if seg_text.length > max_chunk_chars then
              (cs ++ _window_chunks rel_path "python" kind (some name) seg_lines start max_chunk_chars,
               syms')
            else (cs ++ [⟨rel_path, "python", kind, some name, start, «end», seg_text⟩], syms')
      some (body.foldl step (headChunks, []))

/-!  ## Hashing and ids (`hashing.py`, `ids.py`)

SHA-256 and UUIDv5 are collision-resistant digests of their input; they are
modelled by injective stand-ins that keep the input key, so that equal inputs
give equal ids and distinct inputs give distinct ids. -/

/-- Stand-in for `hashing.sha256_text`. -/
def sha256_text (s : String) : String := "sha256:" ++ s

/-- Stand-in for `ids.make_symbol_id`: `uuid5` of the joined key
`workspace|git_ref|path|qualname|kind|start|end`. -/
def make_symbol_id (workspace_id git_ref file_path qualname kind : String)
    (start_line end_line : Nat) : String :=
  "uuid5:" ++ String.intercalate "|"
    [workspace_id, git_ref, file_path, qualname, kind, toString start_line, toString end_line]

/-- Stand-in for the `uuid5` chunk-point id of `indexer.index_repo`
(`{wid}:{git_ref}:{path}:{start}:{end}:{sha256(text)}`). -/
def chunk_point_id (workspace_id git_ref : String) (c : Chunk) : String :=
  "uuid5:" ++ String.intercalate ":"
    [workspace_id, git_ref, c.file_path, toString c.start_line, toString c.end_line,
     sha256_text c.text]

/-!  ## Snapshot store rows (`db.py` schema)  -/

/-- A `files_snap` row.  `mtime` (a Python float used only for equality
comparison) is modelled as an integer. -/
structure FileRow where
  workspace_id : String
  git_ref : String
  file_path : String
  sha256 : String
  mtime : Int
  size : Nat
  language : String
  updated_at : String
deriving DecidableEq, Repr

/-- A `symbols_snap` row. -/
structure SymsSnapRow where
  workspace_id : String
  git_ref : String
  file_path : String
  symbol_name : String
  symbol_kind : String
  start_line : Nat
  end_line : Nat
deriving DecidableEq, Repr

/-- A `py_symbols` row. -/
structure PySymRow where
  symbol_id : String
  workspace_id : String
  git_ref : String
  file_path : String
  symbol_name : String
  qualname : String
  symbol_kind : String
  start_line : Nat
  end_line : Nat
deriving DecidableEq, Repr

/-- A `py_refs` row. -/
structure PyRefRow where
  workspace_id : String
  git_ref : String
  symbol_name : String
  file_path : String
  line : Nat
  col : Nat
  context : String
deriving DecidableEq, Repr

/-- A `py_call_edges` row. -/
structure EdgeRow where
  workspace_id : String
  git_ref : String
  from_symbol_id : String
  to_name : String
  to_symbol_id : Option String
  call_line : Nat
deriving DecidableEq, Repr

/-- A `chunk_fts` row (the lexical index). -/
structure FtsRow where
  workspace_id : String
  git_ref : String
  file_path : String
  start_line : Nat
  end_line : Nat
  language : String
  chunk_type : String
  symbol_name : Option String
  text : String
deriving DecidableEq, Repr

/-- A row of the legacy `symbols` table (kept in the schema, "unused by new
code"). -/
structure LegacySymRow where
  workspace_id : String
  file_path : String
  symbol_name : String
  symbol_kind : String
  start_line : Nat
  end_line : Nat
deriving DecidableEq, Repr

/-- A point stored in the external vector index (`qdrant_store`), with the
payload built in `indexer.index_repo`; the vector itself is elided. -/
structure PointRow where
  id : String
  workspace_id : String
  git_ref : String
  file_path : String
  language : String
  chunk_type : String
  symbol_name : Option String
  start_line : Nat
  end_line : Nat
  text : String
  chunk_sha256 : String
  updated_at : String
deriving DecidableEq, Repr

/-- The durable state the indexing pipeline mutates: the SQLite snapshot
tables plus the external vector index.  `oplog` records one tag per issued
write statement (every delete/insert/upsert appends, whether or not any row
matches), so an unchanged `oplog` certifies that zero writes were issued. -/
structure DbState where
  files_snap : List FileRow
  symbols_snap : List SymsSnapRow
  py_symbols : List PySymRow
  py_refs : List PyRefRow
  py_call_edges : List EdgeRow
  chunk_fts : List FtsRow
  legacy_symbols : List LegacySymRow
  qdrant : List PointRow
  oplog : List String
deriving DecidableEq, Repr

/-- SQLite `INSERT OR REPLACE`: delete primary-key conflicts, append. -/
def insertOrReplaceBy {α : Type} (conflict : α → α → Bool) (t : List α) (r : α) : List α :=
  t.filter (fun x => !conflict r x) ++ [r]

/-- SQLite `INSERT OR IGNORE`: append only when no primary-key conflict. -/
def insertOrIgnoreBy {α : Type} (conflict : α → α → Bool) (t : List α) (r : α) : List α :=
  if t.any (fun x => conflict r x) then t else t ++ [r]

/-- `py_symbols` primary key: `symbol_id`. -/
def pySymConflict (a b : PySymRow) : Bool := a.symbol_id == b.symbol_id

/-- `py_refs` primary key: `(workspace_id, git_ref, symbol_name, file_path,
line, col)`. -/
def pyRefConflict (a b : PyRefRow) : Bool :=
  a.workspace_id == b.workspace_id && a.git_ref == b.git_ref &&
  a.symbol_name == b.symbol_name && a.file_path == b.file_path &&
  a.line == b.line && a.col == b.col

/-- `py_call_edges` primary key, with SQLite `NULL` semantics: a `NULL`
`to_symbol_id` never equals anything, so rows with a null target never
conflict. -/
def edgeConflict (a b : EdgeRow) : Bool :=
  a.workspace_id == b.workspace_id && a.git_ref == b.git_ref &&
  a.from_symbol_id == b.from_symbol_id && a.to_name == b.to_name &&
  a.call_line == b.call_line &&
  (match a.to_symbol_id, b.to_symbol_id with
   | some x, some y => x == y
   | _, _ => false)

/-- `symbols_snap` primary key: `(workspace_id, git_ref, file_path,
symbol_name, symbol_kind, start_line)`. -/
def symsSnapConflict (a b : SymsSnapRow) : Bool :=
  a.workspace_id == b.workspace_id && a.git_ref == b.git_ref &&
  a.file_path == b.file_path && a.symbol_name == b.symbol_name &&
  a.symbol_kind == b.symbol_kind && a.start_line == b.start_line

/-- Qdrant upsert: points are replaced by id. -/
def pointConflict (a b : PointRow) : Bool := a.id == b.id

/-!  ## Call-edge resolution and per-file indexing (`indexer.index_repo`)  -/

/-- The `name_to_ids_local` map of `index_repo`, as (symbol_name, symbol_id)
pairs of the file's freshly built `def_rows`. -/
def localNamePairs (def_rows : List PySymRow) : List (String × String) :=
  def_rows.map (fun r => (r.symbol_name, r.symbol_id))

/-- The `qual_to_id` dict of `index_repo`: qualified name to symbol id, later
entries overwriting earlier ones. -/
def qualLookup (def_rows : List PySymRow) (qualname : String) : Option String :=
  ((def_rows.filter (fun r => r.qualname == qualname)).map (·.symbol_id)).getLast?

/-- The target-resolution logic of `index_repo`: look the callee's final
dotted segment up among the file's own symbols, then among the snapshot-wide
symbols, resolving only a unique match. -/
def resolveCallTarget (localPairs globalPairs : List (String × String))
    (callee : String) : Option String :=
  let base := lastSegment callee
  match (localPairs.filter (fun p => p.1 == base)).map (·.2) with
  | [x] => some x
  | _ =>
      match (globalPairs.filter (fun p => p.1 == base)).map (·.2) with
      | [y] => some y
      | _ => none

/-- The `edge_rows` loop of `index_repo`: one stored edge per call site whose
caller resolves to a symbol id of this file; unresolved targets stay `none`. -/
def computeEdgeRows (wid git_ref : String) (def_rows : List PySymRow)
    (globalPairs : List (String × String)) (calls : List PyCall) : List EdgeRow :=
  calls.filterMap (fun c =>
    match qualLookup def_rows c.caller_qualname with
    | none => none
    | some from_id =>
        some ⟨wid, git_ref, from_id, c.callee,
          resolveCallTarget (localNamePairs def_rows) globalPairs c.callee, c.line⟩)

/-- What `index_repo` knows about one candidate file: path, language, content
digest, stat data, text, and the (external) parse outcome of the text. -/
structure FileInput where
  rel : String
  lang : String
  hash : String
  mtime : Int
  size : Nat
  text : String
  parsed : Option (List PyAst)

/-- The change-detection predicate of `index_repo` (indexer.py:109-110): a
file is unchanged iff a stored `files_snap` row matches digest, mtime and
size exactly. -/
def fileUnchanged (st : DbState) (wid git_ref : String) (f : FileInput) : Bool :=
  match st.files_snap.find? (fun r =>
      r.workspace_id == wid && r.git_ref == git_ref && r.file_path == f.rel) with
  | some row => row.sha256 == f.hash && row.mtime == f.mtime && row.size == f.size
  | none => false

/-- The vector-index point built for one chunk in `index_repo`. -/
def mkPoint (wid git_ref now : String) (c : Chunk) : PointRow :=
  ⟨chunk_point_id wid git_ref c, wid, git_ref, c.file_path, c.language, c.chunk_type,
   c.symbol_name, c.start_line, c.end_line, c.text, sha256_text c.text, now⟩

/-- The Python-enrichment block of `index_repo` (indexer.py:155-221), with the
statements in source order.  Note that the `py_call_edges` delete runs its
`IN (SELECT symbol_id FROM py_symbols WHERE ... file_path=?)` subquery
against the store *after* this file's `py_symbols` rows were deleted. -/
def pyEnrichment (wid git_ref rel : String) (defs : List PyDef) (refs : List PyRef)
    (calls : List PyCall) (st : DbState) : DbState :=
  let st := { st with
    py_symbols := st.py_symbols.filter (fun r =>
      !(r.workspace_id == wid && r.git_ref == git_ref && r.file_path == rel)),
    oplog := st.oplog ++ ["delete py_symbols"] }
  let st := { st with
    py_refs := st.py_refs.filter (fun r =>
      !(r.workspace_id == wid && r.git_ref == git_ref && r.file_path == rel)),
    oplog := st.oplog ++ ["delete py_refs"] }
  let fileSymbolIds := (st.py_symbols.filter (fun r =>
      r.workspace_id == wid && r.git_ref == git_ref && r.file_path == rel)).map (·.symbol_id)
  let st := { st with
    py_call_edges := st.py_call_edges.filter (fun e =>
      !(e.workspace_id == wid && e.git_ref == git_ref &&
        fileSymbolIds.contains e.from_symbol_id)),
    oplog := st.oplog ++ ["delete py_call_edges"] }
  let def_rows : List PySymRow := defs.map (fun d =>
    ⟨make_symbol_id wid git_ref rel d.qualname d.kind d.start_line d.end_line,
     wid, git_ref, rel, d.name, d.qualname, d.kind, d.start_line, d.end_line⟩)
  let st := if def_rows ≠ [] then
      { st with
        py_symbols := def_rows.foldl (insertOrReplaceBy pySymConflict) st.py_symbols,
        oplog := st.oplog ++ ["insert py_symbols"] }
    else st
  let ref_rows : List PyRefRow := refs.map (fun r =>
    ⟨wid, git_ref, r.name, rel, r.line, r.col, r.context⟩)
  let st := if refs ≠ [] then
      { st with
        py_refs := ref_rows.foldl (insertOrReplaceBy pyRefConflict) st.py_refs,
        oplog := st.oplog ++ ["insert py_refs"] }
    else st
  if calls ≠ [] ∧ def_rows ≠ [] then
    let globalPairs := (st.py_symbols.filter (fun r =>
        r.workspace_id == wid && r.git_ref == git_ref)).map (fun r => (r.symbol_name, r.symbol_id))
    let edge_rows := computeEdgeRows wid git_ref def_rows globalPairs calls
    if edge_rows ≠ [] then
      { st with
        py_call_edges := edge_rows.foldl (insertOrReplaceBy edgeConflict) st.py_call_edges,
        oplog := st.oplog ++ ["insert py_call_edges"] }
    else st
  else st

/-- The changed-file branch of the per-file loop of `index_repo`
(indexer.py:116-247): chunk, replace vector points, python enrichment,
replace lexical rows, upsert the `FileRecord`, replace `symbols_snap` rows.
`none` models a diverging fallback chunker. -/
def indexChangedFile (maxChunkChars maxFallbackLines fallbackOverlap : Nat)
    (wid git_ref now : String) (st : DbState) (f : FileInput) : Option (DbState × Bool) :=
  let chunksSyms : Option (List Chunk × List (String × String × Nat × Nat)) :=
    if f.lang == "python" then chunk_python f.rel f.text maxChunkChars f.parsed
    else (chunk_fallback f.rel f.text f.lang maxFallbackLines fallbackOverlap).map
      (fun cs => (cs, []))
  chunksSyms.map (fun (chunks, symbols) =>
    let st := { st with
      qdrant := st.qdrant.filter (fun p =>
        !(p.workspace_id == wid && p.file_path == f.rel && p.git_ref == git_ref)),
      oplog := st.oplog ++ ["qdrant delete_file"] }
    let points := chunks.map (mkPoint wid git_ref now)
    let st := { st with
      qdrant := points.foldl (insertOrReplaceBy pointConflict) st.qdrant,
      oplog := st.oplog ++ ["qdrant upsert_chunks"] }
    let st := if f.lang == "python" then
        let (defs, refs, calls) := analyze_python_source f.parsed f.text
        pyEnrichment wid git_ref f.rel defs refs calls st
      else st
    let st := { st with
      chunk_fts := st.chunk_fts.filter (fun r =>
        !(r.workspace_id == wid && r.file_path == f.rel && r.git_ref == git_ref)),
      oplog := st.oplog ++ ["delete chunk_fts"] }
    let fts_rows : List FtsRow := chunks.map (fun c =>
      ⟨wid, git_ref, c.file_path, c.start_line, c.end_line, c.language,
       c.chunk_type, c.symbol_name, c.text⟩)
    let st := if chunks ≠ [] then
        { st with
          chunk_fts := st.chunk_fts ++ fts_rows,
          oplog := st.oplog ++ ["insert chunk_fts"] }
      else st
    let newRow : FileRow := ⟨wid, git_ref, f.rel, f.hash, f.mtime, f.size, f.lang, now⟩
    let st := { st with
      files_snap :=
        if st.files_snap.any (fun r =>
            r.workspace_id == wid && r.git_ref == git_ref && r.file_path == f.rel) then
          st.files_snap.map (fun (r : FileRow) =>
            if r.workspace_id == wid && r.git_ref == git_ref && r.file_path == f.rel
            then newRow else r)
        else st.files_snap ++ [newRow],
      oplog := st.oplog ++ ["upsert files_snap"] }
    let st := { st with
      symbols_snap := st.symbols_snap.filter (fun r =>
        !(r.workspace_id == wid && r.git_ref == git_ref && r.file_path == f.rel)),
      oplog := st.oplog ++ ["delete symbols_snap"] }
    let snap_rows : List SymsSnapRow := symbols.map (fun s =>
      ⟨wid, git_ref, f.rel, s.1, s.2.1, s.2.2.1, s.2.2.2⟩)
    let st := if symbols ≠ [] then
        { st with
          symbols_snap := snap_rows.foldl (insertOrIgnoreBy symsSnapConflict) st.symbols_snap,
          oplog := st.oplog ++ ["insert symbols_snap"] }
      else st
    (st, true))

/-- One iteration of the per-file loop of `index_repo`: skip the file with
zero writes when unchanged, else re-index it.  The returned flag is the
`changed` increment. -/
def indexFileStep (maxChunkChars maxFallbackLines fallbackOverlap : Nat)
    (wid git_ref now : String) (st : DbState) (f : FileInput) : Option (DbState × Bool) :=
  if fileUnchanged st wid git_ref f then some (st, false)
  else indexChangedFile maxChunkChars maxFallbackLines fallbackOverlap wid git_ref now st f

/-!  ## Retrieval engine (`search.py`)  -/

/-- Substring containment on character lists. -/
def listInfix (needle : List Char) : List Char → Bool
  | [] => needle.isEmpty
  | c :: rest => needle.isPrefixOf (c :: rest) || listInfix needle rest

/-- SQLite `LIKE '%name%'`: case-insensitive substring containment. -/
def likeContains (haystack needle : String) : Bool :=
  listInfix (needle.data.map Char.toLower) (haystack.data.map Char.toLower)

/-- `path_prefix.strip().lstrip("/")` from `search.py`. -/
def stripPrefixArg (p : String) : String :=
  String.mk ((pyStrip p).data.dropWhile (fun c => c = '/'))

/-- The *effective* `SearchEngine.symbol_find` (search.py:417-431; Python
keeps the later of two same-named method definitions): substring match over
the legacy revision-less `symbols` table, optional language short-circuit and
client-side path-prefix filter, rows in table order, truncated to `limit`.
`prefixPath` models the `path_prefix` argument. -/
def symbol_find (st : DbState) (wid name : String) (language : Option String)
    (prefixPath : Option String) (limit : Nat) : List LegacySymRow :=
  if language.any (fun l => l != "" && l != "python") then []
  else
    let rows : List LegacySymRow := st.legacy_symbols.filter (fun r =>
      r.workspace_id == wid && likeContains r.symbol_name name)
    let rows : List LegacySymRow := match prefixPath with
      | some p => rows.filter (fun r => strStartsWith r.file_path (stripPrefixArg p))
      | none => rows
    rows.take limit

/-- Ordering used by `ORDER BY file_path, start_line`. -/
def symsSnapLe (a b : SymsSnapRow) : Prop :=
  a.file_path < b.file_path ∨ (a.file_path = b.file_path ∧ a.start_line ≤ b.start_line)

instance : DecidableRel symsSnapLe := fun a b => by
  unfold symsSnapLe; infer_instance

/-- The *shadowed* first `SearchEngine.symbol_find` definition
(search.py:265-294): substring match over `symbols_snap`, optionally scoped
by revision and path prefix, `ORDER BY file_path, start_line`, `LIMIT`.
(The `language` parameter exists in the source signature but is unused.) -/
def symbol_find_snap (st : DbState) (wid name : String) (git_ref : Option String)
    (prefixPath : Option String) (limit : Nat) : List SymsSnapRow :=
  let rows := st.symbols_snap.filter (fun r =>
    r.workspace_id == wid &&
    (match git_ref with | some g => r.git_ref == g | none => true) &&
    (match prefixPath with
     | some p => strStartsWith r.file_path (stripPrefixArg p)
     | none => true) &&
    likeContains r.symbol_name name)
  (List.insertionSort symsSnapLe rows).take limit

/-- `clamp01` from `SearchEngine.hybrid_search` (the `x != x` NaN guard has no
counterpart over `ℚ`). -/
def clamp01 (x : ℚ) : ℚ := max 0 (min 1 x)

/-- The fused score of `hybrid_search` (search.py:225-231): alpha clamped to
`[0, 1]`, `hybrid = alpha·semantic + (1-alpha)·lexical` over the clamped
component scores. -/
def hybridScore (alpha sem lex : ℚ) : ℚ :=
  let a := clamp01 alpha
  a * clamp01 sem + (1 - a) * clamp01 lex

/-!  ## Path validation (`security.py`)  -/

/-- A POSIX path: absolute flag and components. -/
structure PyPath where
  absolute : Bool
  comps : List String
deriving DecidableEq, Repr

/-- `Path.resolve()` component normalization: drop `.`/empty components,
apply `..` (staying put at the filesystem root). -/
def resolveComps (cs : List String) : List String :=
  cs.foldl (fun acc c =>
    if c = "" ∨ c = "." then acc
    else if c = ".." then acc.dropLast
    else acc ++ [c]) []

/-- `security.PathAccessError`: the distinct access-denied error. -/
structure PathAccessError where
  message : String
deriving DecidableEq, Repr

/-- `security.normalize_rel_file` over an already-resolved absolute
`repo_root`: reject absolute `file_path`, resolve against the root, reject a
resolution that escapes the root (`relative_to` fails iff the root's
components are not a prefix), else return the resolved path.  The function is
pure: no filesystem read or index mutation happens on the error paths. -/
def normalize_rel_file (repo_root : PyPath) (file_path : PyPath) :
    Except PathAccessError PyPath :=
  if file_path.absolute then
    .error ⟨"file_path must be relative to repo_root (not absolute)."⟩
  else
    let resolved : PyPath := ⟨true, resolveComps (repo_root.comps ++ file_path.comps)⟩
    if repo_root.comps.isPrefixOf resolved.comps then .ok resolved
    else .error ⟨"file_path escapes repo_root (.. or symlink traversal)."⟩

/-- Spec-side: the resolution of a relative path against the workspace root. -/
def resolveAgainstRoot (repo_root : PyPath) (file_path : PyPath) : PyPath :=
  ⟨true, resolveComps (repo_root.comps ++ file_path.comps)⟩

/-- Spec-side: a path is inside the workspace root. -/
def withinRoot (repo_root p : PyPath) : Prop :=
  List.IsPrefix repo_root.comps p.comps

/-!  ## Helper lemmas: fallback chunking  -/

theorem fallbackGo_isSome (rel language : String) (lines : List String)
    (maxLines overlap : Nat) (hov : overlap < maxLines) :
    ∀ fuel i out, lines.length - i < fuel →
      (fallbackGo rel language lines maxLines overlap fuel i out).isSome = true := by
  intro fuel
  induction fuel with
  | zero => intro i out h; omega
  | succ f ih =>
      intro i out h
      rw [fallbackGo]
      by_cases h1 : i < lines.length
      · simp only [h1, if_true]
        by_cases h2 : min lines.length (i + maxLines) ≥ lines.length
        · simp [h2]
        · simp only [h2, if_false]
          apply ih
          have hj : min lines.length (i + maxLines) = i + maxLines := by omega
          omega
      · simp [h1]

theorem chunk_fallback_total (rel text language : String) (maxLines overlap : Nat)
    (hov : overlap < maxLines) :
    (chunk_fallback rel text language maxLines overlap).isSome = true := by
  unfold chunk_fallback
  exact fallbackGo_isSome rel language _ maxLines overlap hov _ 0 [] (by omega)

theorem fallbackGo_stuck :
    ∀ fuel out, fallbackGo "a.txt" "text" ["a", "b"] 1 1 fuel 0 out = none := by
  intro fuel
  induction fuel with
  | zero => intro out; rfl
  | succ f ih =>
      intro out
      show fallbackGo "a.txt" "text" ["a", "b"] 1 1 f 0
        (out ++ [⟨"a.txt", "text", "window", none, 1, 1, "a"⟩]) = none
      exact ih _

theorem fallbackGo_eq_trace (rel language : String) (lines : List String)
    (maxLines overlap : Nat) :
    ∀ fuel i out res,
      fallbackGo rel language lines maxLines overlap fuel i out = some res →
      res = out ++ traceChunks rel language lines
        (fallbackTrace lines.length maxLines overlap fuel i) := by
  intro fuel
  induction fuel with
  | zero => intro i out res h; exact absurd h (by rw [fallbackGo]; simp)
  | succ f ih =>
      intro i out res h
      rw [fallbackGo] at h
      rw [fallbackTrace]
      by_cases h1 : i < lines.length
      · simp only [h1, if_true] at h ⊢
        by_cases h2 : min lines.length (i + maxLines) ≥ lines.length
        · simp only [h2, if_true] at h ⊢
          rw [traceChunks]
          by_cases hw : pyStrip (joinLines ((lines.drop i).take
              (min lines.length (i + maxLines) - i))) = ""
          · simp only [hw, if_true] at h
            simp only [hw, if_pos rfl]
            simp only [Option.some.injEq] at h
            simp [← h, traceChunks]
          · simp only [hw, if_false] at h
            simp only [hw, if_neg hw]
            simp only [Option.some.injEq] at h
            simp [← h, traceChunks]
        · simp only [h2, if_false] at h ⊢
          rw [traceChunks]
          by_cases hw : pyStrip (joinLines ((lines.drop i).take
              (min lines.length (i + maxLines) - i))) = ""
          · simp only [hw, if_true] at h
            have := ih _ _ _ h
            simp only [hw, if_pos rfl]
            exact this
          · simp only [hw, if_false] at h
            have := ih _ _ _ h
            simp only [hw, if_neg hw]
            simp [this, traceChunks]
      · simp only [h1, if_false, Option.some.injEq] at h
        simp [h1, ← h, traceChunks]

theorem fallbackTrace_head (n maxLines overlap : Nat) :
    ∀ fuel i p rest, fallbackTrace n maxLines overlap fuel i = p :: rest → p.1 = i := by
  intro fuel
  cases fuel with
  | zero => intro i p rest h; exact absurd h (by rw [fallbackTrace]; simp)
  | succ f =>
      intro i p rest h
      rw [fallbackTrace] at h
      by_cases h1 : i < n
      · simp only [h1, if_true] at h
        by_cases h2 : min n (i + maxLines) ≥ n
        · simp only [h2, if_true, List.cons.injEq] at h
          rw [← h.1]
        · simp only [h2, if_false, List.cons.injEq] at h
          rw [← h.1]
      · simp [h1] at h

theorem fallbackTrace_width (n maxLines overlap : Nat) :
    ∀ fuel i, ∀ p ∈ fallbackTrace n maxLines overlap fuel i, p.2 ≤ p.1 + maxLines := by
  intro fuel
  induction fuel with
  | zero => intro i p hp; rw [fallbackTrace] at hp; simp at hp
  | succ f ih =>
      intro i p hp
      rw [fallbackTrace] at hp
      by_cases h1 : i < n
      · simp only [h1, if_true] at hp
        by_cases h2 : min n (i + maxLines) ≥ n
        · rw [if_pos h2] at hp
          rw [List.mem_singleton] at hp
          subst hp
          show min n (i + maxLines) ≤ i + maxLines
          omega
        · rw [if_neg h2] at hp
          rw [List.mem_cons] at hp
          rcases hp with hp | hp
          · subst hp
            show min n (i + maxLines) ≤ i + maxLines
            omega
          · exact ih _ p hp
      · simp [h1] at hp

theorem fallbackTrace_chain (n maxLines overlap : Nat) (hov : overlap < maxLines) :
    ∀ fuel i, List.Chain' (fun p q : Nat × Nat => q.1 + overlap = p.2)
      (fallbackTrace n maxLines overlap fuel i) := by
  intro fuel
  induction fuel with
  | zero => intro i; rw [fallbackTrace]; exact List.chain'_nil
  | succ f ih =>
      intro i
      rw [fallbackTrace]
      by_cases h1 : i < n
      · simp only [h1, if_true]
        by_cases h2 : min n (i + maxLines) ≥ n
        · simp [h2]
        · simp only [h2, if_false]
          rw [List.chain'_cons']
          refine ⟨?_, ih _⟩
          intro q hq
          have hne : fallbackTrace n maxLines overlap f (min n (i + maxLines) - overlap) ≠ [] := by
            intro hnil
            rw [hnil] at hq
            simp at hq
          obtain ⟨p', rest', hcons⟩ := List.exists_cons_of_ne_nil hne
          have hfst := fallbackTrace_head n maxLines overlap f _ p' rest' hcons
          rw [hcons] at hq
          simp only [List.head?_cons, Option.mem_def, Option.some.injEq] at hq
          subst hq
          rw [hfst]
          omega
      · simp [h1]

theorem traceChunks_width (rel language : String) (lines : List String) (maxLines : Nat) :
    ∀ pairs : List (Nat × Nat), (∀ p ∈ pairs, p.2 ≤ p.1 + maxLines) →
      ∀ c ∈ traceChunks rel language lines pairs, c.end_line < c.start_line + maxLines := by
  intro pairs
  induction pairs with
  | nil => intro _ c hc; rw [traceChunks] at hc; simp at hc
  | cons p rest ih =>
      intro hw c hc
      obtain ⟨i, j⟩ := p
      rw [traceChunks] at hc
      by_cases hwin : pyStrip (joinLines ((lines.drop i).take (j - i))) = ""
      · rw [if_pos hwin] at hc
        exact ih (fun q hq => hw q (List.mem_cons_of_mem _ hq)) c hc
      · rw [if_neg hwin, List.mem_cons] at hc
        rcases hc with hc | hc
        · subst hc
          have hj : j ≤ i + maxLines := hw (i, j) (List.mem_cons_self _ _)
          show j < i + 1 + maxLines
          omega
        · exact ih (fun q hq => hw q (List.mem_cons_of_mem _ hq)) c hc

/-!  ## Helper lemmas: window chunking  -/

theorem windowFlush_good (rel lang : String) (symbol : Option String) (maxChars : Nat)
    (bufStart curLine : Nat) (buf : List String) (out : List Chunk)
    (hbuf : buf ≠ []) (hcl : curLine = bufStart + buf.length)
    (hlen : 2 ≤ buf.length → (joinLines buf).length ≤ maxChars)
    (hout : ∀ c ∈ out, c.start_line = c.end_line ∨ c.text.length ≤ maxChars) :
    ∀ c ∈ windowFlush rel lang symbol bufStart curLine buf out,
      c.start_line = c.end_line ∨ c.text.length ≤ maxChars := by
  intro c hc
  simp only [windowFlush] at hc
  by_cases ht : pyStrip (joinLines buf) = ""
  · rw [if_pos ht] at hc
    exact hout c hc
  · rw [if_neg ht, List.mem_append, List.mem_singleton] at hc
    rcases hc with hc | hc
    · exact hout c hc
    · subst hc
      rcases Nat.lt_or_ge buf.length 2 with h2 | h2
      · left
        have h1 : buf.length = 1 := by
          have hpos : 0 < buf.length := List.length_pos.mpr hbuf
          omega
        show bufStart = curLine - 1
        omega
      · right
        calc (pyStrip (joinLines buf)).length ≤ (joinLines buf).length :=
              pyStrip_length_le _
          _ ≤ maxChars := hlen h2

theorem windowGo_good (rel lang : String) (symbol : Option String) (maxChars : Nat) :
    ∀ (lines : List String) (bufStart curLine : Nat) (buf : List String) (out : List Chunk),
      curLine = bufStart + buf.length →
      (2 ≤ buf.length → (joinLines buf).length ≤ maxChars) →
      (∀ c ∈ out, c.start_line = c.end_line ∨ c.text.length ≤ maxChars) →
      ∀ c ∈ windowGo rel lang symbol maxChars lines bufStart curLine buf out,
        c.start_line = c.end_line ∨ c.text.length ≤ maxChars := by
  intro lines
  induction lines with
  | nil =>
      intro bufStart curLine buf out hcl hlen hout c hc
      rw [windowGo] at hc
      by_cases hbuf : buf = []
      · simp only [hbuf, if_pos rfl] at hc
        exact hout c hc
      · simp only [hbuf, if_neg hbuf] at hc
        exact windowFlush_good rel lang symbol maxChars bufStart curLine buf out
          hbuf hcl hlen hout c hc
  | cons line rest ih =>
      intro bufStart curLine buf out hcl hlen hout c hc
      rw [windowGo] at hc
      by_cases hcond : buf ≠ [] ∧ (joinLines (buf ++ [line])).length > maxChars
      · simp only [if_pos hcond] at hc
        refine ih curLine (curLine + 1) [line] _ (by simp) (by intro h; simp at h) ?_ c hc
        exact windowFlush_good rel lang symbol maxChars bufStart curLine buf out
          hcond.1 hcl hlen hout
      · simp only [if_neg hcond] at hc
        refine ih bufStart (curLine + 1) (buf ++ [line]) out (by simp [hcl]; omega) ?_ hout c hc
        intro h2
        by_cases hbuf : buf = []
        · subst hbuf; simp at h2
        · push_neg at hcond
          exact hcond hbuf

/-!  ## Claim theorems: chunking  -/

/-- C4 (counterexample): window chunking *can* exceed the configured maximum:
a definition consisting of a single 5-character line split with
`max_chunk_chars = 2` yields a window of length 5; and two consecutive
*emitted* fallback windows need not overlap by `overlap_lines` when an
intervening whitespace-only window is skipped (`"a\n\n\nb"` with
`max_lines = 2, overlap_lines = 1` emits windows at lines 1-2 and 3-4, which
share no line). -/
theorem claim_C4_counterexample :
    (∃ c ∈ _window_chunks "a.py" "python" "function" (some "f") ["aaaaa"] 1 2,
        2 < c.text.length) ∧
    chunk_fallback "a.txt" "a\n\n\nb" "text" 2 1 =
      some [⟨"a.txt", "text", "window", none, 1, 2, "a"⟩,
            ⟨"a.txt", "text", "window", none, 3, 4, "b"⟩] ∧
    ¬ List.Chain' (fun c c' : Chunk => c'.start_line + 1 = c.end_line + 1)
        [⟨"a.txt", "text", "window", none, 1, 2, "a"⟩,
         ⟨"a.txt", "text", "window", none, 3, 4, "b"⟩] := by
  refine ⟨⟨⟨"a.py", "python", "window", some "f", 1, 1, "aaaaa"⟩, by decide, by decide⟩, by decide, ?_⟩
  intro h
  have hrel := (List.chain'_cons.mp h).1
  simp at hrel

/-- C4 (amended): (1) every `_window_chunks` window spanning at least two
source lines has text of at most `max_chunk_chars` characters (a
single-source-line window may exceed the limit when that line alone does);
(2) fallback windows never exceed `max_lines` lines, and the emitted chunks
are exactly the generated windows with nonempty stripped text; (3) under
`overlap_lines < max_lines`, each generated fallback window after the first
starts exactly `overlap_lines` lines before the previous window's end, i.e.
consecutive generated windows overlap by the configured `overlap_lines`. -/
theorem claim_C4 :
    (∀ (rel lang ct : String) (symbol : Option String) (lines : List String)
        (startLine maxChars : Nat),
      ∀ c ∈ _window_chunks rel lang ct symbol lines startLine maxChars,
        c.start_line = c.end_line ∨ c.text.length ≤ maxChars) ∧
    (∀ (rel text language : String) (maxLines overlap : Nat) (res : List Chunk),
      chunk_fallback rel text language maxLines overlap = some res →
        (∀ c ∈ res, c.end_line < c.start_line + maxLines) ∧
        res = traceChunks rel language (pySplitlines text)
          (fallbackTrace (pySplitlines text).length maxLines overlap
            ((pySplitlines text).length + 1) 0)) ∧
    (∀ (n maxLines overlap fuel i : Nat), overlap < maxLines →
      List.Chain' (fun p q : Nat × Nat => q.1 + overlap = p.2)
        (fallbackTrace n maxLines overlap fuel i)) := by
  refine ⟨?_, ?_, ?_⟩
  · intro rel lang ct symbol lines startLine maxChars c hc
    exact windowGo_good rel lang symbol maxChars lines startLine startLine [] []
      (by simp) (by intro h; simp at h) (by intro c hc; simp at hc) c hc
  · intro rel text language maxLines overlap res h
    have htr := fallbackGo_eq_trace rel language (pySplitlines text) maxLines overlap
      _ _ _ _ h
    simp only [List.nil_append] at htr
    constructor
    · intro c hc
      rw [htr] at hc
      exact traceChunks_width rel language (pySplitlines text) maxLines _
        (fun p hp => fallbackTrace_width _ maxLines overlap _ _ p hp) c hc
    · exact htr
  · intro n maxLines overlap fuel i hov
    exact fallbackTrace_chain n maxLines overlap hov fuel i

/-- C4 (witness): the amended theorem applied at concrete inputs: the
single-line oversized window is exempted by the first disjunct, and the
3-line/`max_lines=2`/`overlap=1` trace is chained with exact overlap 1. -/
theorem claim_C4_witness :
    ((⟨"a.py", "python", "window", some "f", 1, 1, "aaaaa"⟩ : Chunk).start_line =
        (⟨"a.py", "python", "window", some "f", 1, 1, "aaaaa"⟩ : Chunk).end_line ∨
      (⟨"a.py", "python", "window", some "f", 1, 1, "aaaaa"⟩ : Chunk).text.length ≤ 2) ∧
    List.Chain' (fun p q : Nat × Nat => q.1 + 1 = p.2) (fallbackTrace 3 2 1 4 0) :=
  ⟨claim_C4.1 "a.py" "python" "function" (some "f") ["aaaaa"] 1 2
      ⟨"a.py", "python", "window", some "f", 1, 1, "aaaaa"⟩ (by decide),
   claim_C4.2.2 3 2 1 4 0 (by decide)⟩

/-- C10: `chunk_fallback` terminates for every input whenever
`overlap_lines < max_lines` (the window start strictly advances each
iteration, so the fuelled loop finishes within `n+1` steps); the precondition
is required: with `max_lines = 1, overlap_lines = 1` on a two-line text the
loop never terminates (the fuelled loop yields `none` for every fuel). -/
theorem claim_C10 :
    (∀ (rel text language : String) (maxLines overlap : Nat), overlap < maxLines →
      (chunk_fallback rel text language maxLines overlap).isSome = true) ∧
    (∀ fuel out, fallbackGo "a.txt" "text" ["a", "b"] 1 1 fuel 0 out = none) :=
  ⟨fun rel text language maxLines overlap hov =>
      chunk_fallback_total rel text language maxLines overlap hov,
   fallbackGo_stuck⟩

/-- C10 (witness): termination at a concrete input with `overlap < max_lines`. -/
theorem claim_C10_witness :
    1 < 2 ∧ (chunk_fallback "w.txt" "x\ny\nz" "text" 2 1).isSome = true :=
  ⟨by decide, claim_C10.1 "w.txt" "x\ny\nz" "text" 2 1 (by decide)⟩

/-- C7: when the text fails to parse (`parsed = none`), `chunk_python`
degrades to fixed-window fallback chunks (`max_lines=220, overlap_lines=40`)
with an empty symbol list — and that fallback terminates, so the call never
fails — and `analyze_python_source` returns empty definition, reference and
call lists. -/
theorem claim_C7 :
    ∀ (rel text : String) (maxChars : Nat),
      chunk_python rel text maxChars none =
        (chunk_fallback rel text "python" 220 40).map (fun cs => (cs, [])) ∧
      (chunk_python rel text maxChars none).isSome = true ∧
      analyze_python_source none text = ([], [], []) := by
  intro rel text maxChars
  refine ⟨rfl, ?_, rfl⟩
  have h := chunk_fallback_total rel text "python" 220 40 (by omega)
  rw [chunk_python]
  cases hcf : chunk_fallback rel text "python" 220 40 with
  | none => rw [hcf] at h; simp at h
  | some cs => rfl

/-!  ## Claim theorems: call-edge resolution, change detection, fusion, paths  -/

/-- Modelled from the spec's resolution-policy wording: take the callee's
final dotted segment; if exactly one symbol with that name is defined in the
same file, resolve to its id; otherwise, if exactly one symbol with that name
exists in the whole (workspace, revision) snapshot, resolve to it; in every
other case the target is null. -/
def resolutionPolicySpec (localPairs globalPairs : List (String × String))
    (callee : String) : Option String :=
  let base := lastSegment callee
  let localMatches := (localPairs.filter (fun p => p.1 == base)).map (·.2)
  let globalMatches := (globalPairs.filter (fun p => p.1 == base)).map (·.2)
  if localMatches.length = 1 then localMatches.head?
  else if globalMatches.length = 1 then globalMatches.head?
  else none

theorem resolveCallTarget_eq_policy (localPairs globalPairs : List (String × String))
    (callee : String) :
    resolveCallTarget localPairs globalPairs callee =
      resolutionPolicySpec localPairs globalPairs callee := by
  unfold resolveCallTarget resolutionPolicySpec
  rcases hL : (localPairs.filter (fun p => p.1 == lastSegment callee)).map (·.2) with
    _ | ⟨x, _ | ⟨y, t⟩⟩ <;>
  rcases hG : (globalPairs.filter (fun p => p.1 == lastSegment callee)).map (·.2) with
    _ | ⟨a, _ | ⟨b, u⟩⟩ <;>
  simp [hL, hG]

/-- C2: every call edge stored by the indexing pipeline carries exactly the
target prescribed by the resolution policy: unique same-file name match
first, else unique snapshot-wide name match, else null. -/
theorem claim_C2 :
    ∀ (wid git_ref : String) (def_rows : List PySymRow)
      (globalPairs : List (String × String)) (calls : List PyCall),
      ∀ e ∈ computeEdgeRows wid git_ref def_rows globalPairs calls,
        e.to_symbol_id = resolutionPolicySpec (localNamePairs def_rows) globalPairs e.to_name := by
  intro wid git_ref def_rows globalPairs calls e he
  simp only [computeEdgeRows, List.mem_filterMap] at he
  obtain ⟨c, hc, hsome⟩ := he
  rcases hq : qualLookup def_rows c.caller_qualname with _ | from_id
  · rw [hq] at hsome; simp at hsome
  · rw [hq] at hsome
    simp only [Option.some.injEq] at hsome
    subst hsome
    exact resolveCallTarget_eq_policy (localNamePairs def_rows) globalPairs c.callee

/-- C2 (witness): the theorem applied to the single edge produced for a call
`f -> g()` in a file defining `g` (lines 1-2) and `f` (lines 3-4). -/
theorem claim_C2_witness :
    (⟨"w", "r", "uuid5:w|r|a.py|f|function|3|4", "g",
        some "uuid5:w|r|a.py|g|function|1|2", 4⟩ : EdgeRow).to_symbol_id =
      resolutionPolicySpec
        (localNamePairs
          [⟨"uuid5:w|r|a.py|g|function|1|2", "w", "r", "a.py", "g", "g", "function", 1, 2⟩,
           ⟨"uuid5:w|r|a.py|f|function|3|4", "w", "r", "a.py", "f", "f", "function", 3, 4⟩])
        [("g", "uuid5:w|r|a.py|g|function|1|2"), ("f", "uuid5:w|r|a.py|f|function|3|4")]
        (⟨"w", "r", "uuid5:w|r|a.py|f|function|3|4", "g",
          some "uuid5:w|r|a.py|g|function|1|2", 4⟩ : EdgeRow).to_name :=
  claim_C2 "w" "r"
    [⟨"uuid5:w|r|a.py|g|function|1|2", "w", "r", "a.py", "g", "g", "function", 1, 2⟩,
     ⟨"uuid5:w|r|a.py|f|function|3|4", "w", "r", "a.py", "f", "f", "function", 3, 4⟩]
    [("g", "uuid5:w|r|a.py|g|function|1|2"), ("f", "uuid5:w|r|a.py|f|function|3|4")]
    [⟨"f", "g", 4⟩] _ (by decide)

/-- C3: a file whose stored `files_snap` row matches content digest, mtime
and size exactly is skipped with zero writes: the per-file step returns the
state unchanged (including the write log and the vector index) and a `false`
changed-flag. -/
theorem claim_C3 :
    ∀ (maxChunkChars maxFallbackLines fallbackOverlap : Nat) (wid git_ref now : String)
      (st : DbState) (f : FileInput) (row : FileRow),
      st.files_snap.find? (fun r =>
        r.workspace_id == wid && r.git_ref == git_ref && r.file_path == f.rel) = some row →
      row.sha256 = f.hash → row.mtime = f.mtime → row.size = f.size →
      indexFileStep maxChunkChars maxFallbackLines fallbackOverlap wid git_ref now st f =
        some (st, false) := by
  intro maxChunkChars maxFallbackLines fallbackOverlap wid git_ref now st f row hfind h1 h2 h3
  rw [indexFileStep]
  have hu : fileUnchanged st wid git_ref f = true := by
    rw [fileUnchanged, hfind]
    simp [h1, h2, h3]
  rw [if_pos hu]

/-- C3 (witness): the skip at a concrete matching state. -/
def c3_row : FileRow := ⟨"w", "r", "a.py", "h1", 1, 10, "python", "t"⟩

def c3_state : DbState := ⟨[c3_row], [], [], [], [], [], [], [], []⟩

def c3_file : FileInput := ⟨"a.py", "python", "h1", 1, 10, "", none⟩

theorem claim_C3_witness :
    indexFileStep 8000 220 40 "w" "r" "t1" c3_state c3_file = some (c3_state, false) :=
  claim_C3 8000 220 40 "w" "r" "t1" c3_state c3_file c3_row (by decide) rfl rfl rfl

/-- C5: for fixed clamped component scores, the fused score
`alpha·semantic + (1-alpha)·lexical` is monotonically non-decreasing in
`alpha` over `[0, 1]` when the clamped semantic score exceeds the clamped
lexical score, and monotonically non-increasing otherwise. -/
theorem claim_C5 :
    ∀ (sem lex a a' : ℚ), 0 ≤ a → a ≤ a' → a' ≤ 1 →
      (clamp01 lex < clamp01 sem → hybridScore a sem lex ≤ hybridScore a' sem lex) ∧
      (clamp01 sem ≤ clamp01 lex → hybridScore a' sem lex ≤ hybridScore a sem lex) := by
  intro sem lex a a' ha0 haa ha1
  have hca : clamp01 a = a := by
    unfold clamp01
    rw [min_eq_right (by linarith : a ≤ 1), max_eq_right ha0]
  have hca' : clamp01 a' = a' := by
    unfold clamp01
    rw [min_eq_right ha1, max_eq_right (by linarith : (0:ℚ) ≤ a')]
  simp only [hybridScore]
  rw [hca, hca']
  constructor
  · intro h
    nlinarith [mul_nonneg (by linarith : (0:ℚ) ≤ a' - a)
      (by linarith : (0:ℚ) ≤ clamp01 sem - clamp01 lex)]
  · intro h
    nlinarith [mul_nonneg (by linarith : (0:ℚ) ≤ a' - a)
      (by linarith : (0:ℚ) ≤ clamp01 lex - clamp01 sem)]

/-- C5 (witness): monotonicity at `sem = 1, lex = 0` between `alpha = 0` and
`alpha = 1`. -/
theorem claim_C5_witness :
    clamp01 (0 : ℚ) < clamp01 1 ∧ hybridScore 0 1 0 ≤ hybridScore 1 1 0 := by
  have h : clamp01 (0 : ℚ) < clamp01 1 := by norm_num [clamp01]
  exact ⟨h, (claim_C5 1 0 0 1 (by norm_num) (by norm_num) (by norm_num)).1 h⟩

/-- C9: path validation raises the distinct `PathAccessError` exactly for
absolute `file_path` arguments and for relative ones whose resolution against
the workspace root escapes the root; every other relative path yields the
resolved in-root path.  The function performs no filesystem read or index
mutation (it is pure in the model), so the error precedes any such effect. -/
theorem claim_C9 :
    ∀ (root file : PyPath),
      ((∃ e, normalize_rel_file root file = .error e) ↔
        (file.absolute = true ∨ ¬ withinRoot root (resolveAgainstRoot root file))) ∧
      (∀ q, normalize_rel_file root file = .ok q →
        file.absolute = false ∧ q = resolveAgainstRoot root file ∧ withinRoot root q) := by
  intro root file
  by_cases habs : file.absolute = true
  · constructor
    · exact ⟨fun _ => Or.inl habs, fun _ => ⟨_, by rw [normalize_rel_file, if_pos habs]⟩⟩
    · intro q hq
      rw [normalize_rel_file, if_pos habs] at hq
      exact absurd hq (by simp)
  · have habs' : file.absolute = false := by
      cases h : file.absolute
      · rfl
      · exact absurd h habs
    by_cases hpre : root.comps.isPrefixOf (resolveComps (root.comps ++ file.comps)) = true
    · have hwithin : withinRoot root (resolveAgainstRoot root file) :=
        List.isPrefixOf_iff_prefix.mp hpre
      constructor
      · constructor
        · intro ⟨e, he⟩
          rw [normalize_rel_file, if_neg habs, if_pos hpre] at he
          exact absurd he (by simp)
        · intro h
          rcases h with h | h
          · exact absurd h habs
          · exact absurd hwithin h
      · intro q hq
        rw [normalize_rel_file, if_neg habs, if_pos hpre] at hq
        simp only [Except.ok.injEq] at hq
        subst hq
        exact ⟨habs', rfl, hwithin⟩
    · have hnot : ¬ withinRoot root (resolveAgainstRoot root file) := fun h =>
        hpre (List.isPrefixOf_iff_prefix.mpr h)
      constructor
      · constructor
        · intro _; exact Or.inr hnot
        · intro _; exact ⟨_, by rw [normalize_rel_file, if_neg habs, if_neg hpre]⟩
      · intro q hq
        rw [normalize_rel_file, if_neg habs, if_neg hpre] at hq
        exact absurd hq (by simp)

/-- C9 (witness): a concrete relative path `p` under root `/a` resolves to
the in-root path `/a/p`. -/
theorem claim_C9_witness :
    (⟨false, ["p"]⟩ : PyPath).absolute = false ∧
      (⟨true, ["a", "p"]⟩ : PyPath) = resolveAgainstRoot ⟨true, ["a"]⟩ ⟨false, ["p"]⟩ ∧
      withinRoot ⟨true, ["a"]⟩ ⟨true, ["a", "p"]⟩ :=
  (claim_C9 ⟨true, ["a"]⟩ ⟨false, ["p"]⟩).2 ⟨true, ["a", "p"]⟩ (by rfl)

/-!  ## Claim theorems: analyzer classification (C8)  -/

mutual

/-- Whether a (sub)tree contains any class definition. -/
def hasClass : PyAst → Bool
  | .classDef _ _ _ _ => true
  | .funcDef _ _ _ _ body => hasClassList body
  | .callNode func args _ => hasClass func || hasClassList args
  | .nameNode _ _ _ _ => false
  | .attrNode value _ => hasClass value
  | .other children => hasClassList children

/-- `hasClass` over a node list. -/
def hasClassList : List PyAst → Bool
  | [] => false
  | n :: ns => hasClass n || hasClassList ns

end

mutual

/-- The definitions the analyzer emits for one node, written as a recursion
over the tree with an explicit scope: classes are `"class"`, and a function
is `"function"` iff the enclosing scope stack is empty (top level), else
`"method"` — i.e. the amended classification of C8. -/
def specDefsNode (scope : List String) : PyAst → List PyDef
  | .classDef name lineno endLineno body =>
      ⟨name, qualnameOf scope name, "class", lineno, endLineno⟩ ::
        specDefsList (scope ++ [name]) body
  | .funcDef _ name lineno endLineno body =>
      ⟨name, qualnameOf scope name, if scope = [] then "function" else "method",
        lineno, endLineno⟩ :: specDefsList (scope ++ [name]) body
  | .callNode func args _ => specDefsNode scope func ++ specDefsList scope args
  | .nameNode _ _ _ _ => []
  | .attrNode value _ => specDefsNode scope value
  | .other children => specDefsList scope children

/-- `specDefsNode` over a node list. -/
def specDefsList (scope : List String) : List PyAst → List PyDef
  | [] => []
  | n :: ns => specDefsNode scope n ++ specDefsList scope ns

end

mutual

theorem visitNode_spec (lines : List String) (n : PyAst) (st : AnState) :
    (visitNode lines st n).defs = st.defs ++ specDefsNode st.scope n ∧
    (visitNode lines st n).scope = st.scope ∧
    (visitNode lines st n).currentCallable = st.currentCallable := by
  cases n with
  | classDef name lineno endLineno body =>
      obtain ⟨hd, hs, hc⟩ := visitNodes_spec lines body
        { st with
          defs := st.defs ++ [⟨name, qualnameOf st.scope name, "class", lineno, endLineno⟩],
          scope := st.scope ++ [name] }
      refine ⟨?_, rfl, ?_⟩
      · show (visitNodes lines _ body).defs = st.defs ++ specDefsNode st.scope
          (.classDef name lineno endLineno body)
        rw [hd]
        simp [specDefsNode]
      · show (visitNodes lines _ body).currentCallable = st.currentCallable
        rw [hc]
  | funcDef isAsync name lineno endLineno body =>
      obtain ⟨hd, hs, hc⟩ := visitNodes_spec lines body
        { st with
          defs := st.defs ++ [⟨name, qualnameOf st.scope name,
            if st.scope = [] then "function" else "method", lineno, endLineno⟩],
          scope := st.scope ++ [name],
          currentCallable := st.currentCallable ++ [qualnameOf st.scope name] }
      refine ⟨?_, rfl, rfl⟩
      show (visitNodes lines _ body).defs = st.defs ++ specDefsNode st.scope
        (.funcDef isAsync name lineno endLineno body)
      rw [hd]
      simp [specDefsNode]
  | callNode func args lineno =>
      have hst1 : (if st.currentCallable ≠ [] then
          { st with calls := st.calls ++
              [⟨st.currentCallable.getLastD "", _callee_str func, lineno⟩] }
          else st).defs = st.defs ∧
          (if st.currentCallable ≠ [] then
          { st with calls := st.calls ++
              [⟨st.currentCallable.getLastD "", _callee_str func, lineno⟩] }
          else st).scope = st.scope ∧
          (if st.currentCallable ≠ [] then
          { st with calls := st.calls ++
              [⟨st.currentCallable.getLastD "", _callee_str func, lineno⟩] }
          else st).currentCallable = st.currentCallable := by
        by_cases hcc : st.currentCallable ≠ [] <;> simp [hcc]
      obtain ⟨h1d, h1s, h1c⟩ := hst1
      obtain ⟨hfd, hfs, hfc⟩ := visitNode_spec lines func
        (if st.currentCallable ≠ [] then
          { st with calls := st.calls ++
              [⟨st.currentCallable.getLastD "", _callee_str func, lineno⟩] }
          else st)
      obtain ⟨had, has, hac⟩ := visitNodes_spec lines args
        (visitNode lines (if st.currentCallable ≠ [] then
          { st with calls := st.calls ++
              [⟨st.currentCallable.getLastD "", _callee_str func, lineno⟩] }
          else st) func)
      refine ⟨?_, ?_, ?_⟩
      · show (visitNodes lines _ args).defs = st.defs ++ specDefsNode st.scope
          (.callNode func args lineno)
        rw [had, hfd, h1d, hfs, h1s]
        simp [specDefsNode]
      · show (visitNodes lines _ args).scope = st.scope
        rw [has, hfs, h1s]
      · show (visitNodes lines _ args).currentCallable = st.currentCallable
        rw [hac, hfc, h1c]
  | nameNode id isLoad lineno col =>
      by_cases hl : isLoad = true
      · subst hl
        refine ⟨?_, rfl, rfl⟩
        show st.defs = st.defs ++ specDefsNode st.scope (.nameNode id true lineno col)
        simp [specDefsNode]
      · have hl' : isLoad = false := by
          cases isLoad
          · rfl
          · exact absurd rfl hl
        subst hl'
        refine ⟨?_, rfl, rfl⟩
        show st.defs = st.defs ++ specDefsNode st.scope (.nameNode id false lineno col)
        simp [specDefsNode]
  | attrNode value attr =>
      obtain ⟨hd, hs, hc⟩ := visitNode_spec lines value st
      exact ⟨hd, hs, hc⟩
  | other children =>
      obtain ⟨hd, hs, hc⟩ := visitNodes_spec lines children st
      exact ⟨hd, hs, hc⟩

theorem visitNodes_spec (lines : List String) (ns : List PyAst) (st : AnState) :
    (visitNodes lines st ns).defs = st.defs ++ specDefsList st.scope ns ∧
    (visitNodes lines st ns).scope = st.scope ∧
    (visitNodes lines st ns).currentCallable = st.currentCallable := by
  cases ns with
  | nil => exact ⟨by simp [visitNodes, specDefsList], rfl, rfl⟩
  | cons n rest =>
      obtain ⟨hnd, hns, hnc⟩ := visitNode_spec lines n st
      obtain ⟨hrd, hrs, hrc⟩ := visitNodes_spec lines rest (visitNode lines st n)
      refine ⟨?_, ?_, ?_⟩
      · show (visitNodes lines _ rest).defs = st.defs ++ specDefsList st.scope (n :: rest)
        rw [hrd, hnd, hns]
        simp [specDefsList]
      · show (visitNodes lines _ rest).scope = st.scope
        rw [hrs, hns]
      · show (visitNodes lines _ rest).currentCallable = st.currentCallable
        rw [hrc, hnc]

end

/-- C8 (counterexample): a function nested inside a function — with no class
anywhere in the input — is classified `"method"` by the analyzer, where the
claim requires `"function"` for a definition not nested inside any class. -/
theorem claim_C8_counterexample :
    hasClassList [.funcDef false "f" 1 3 [.funcDef false "g" 2 3 [.other []]]] = false ∧
    ∃ d ∈ (analyze_python_source
        (some [.funcDef false "f" 1 3 [.funcDef false "g" 2 3 [.other []]]])
        "def f():\n    def g():\n        pass\n").1,
      d.qualname = "f.g" ∧ d.kind = "method" :=
  ⟨rfl, ⟨⟨"g", "f.g", "method", 2, 3⟩, by decide, rfl, rfl⟩⟩

/-- C8 (amended): the analyzer emits one definition per class/function/async
function encountered, in traversal order, with classes classified `"class"`
and a function classified `"function"` iff its scope stack is empty at the
time of definition — i.e. `"method"` iff it is nested inside *any* enclosing
scope (class or function), not only class scopes. -/
theorem claim_C8 :
    ∀ (body : List PyAst) (text : String),
      (analyze_python_source (some body) text).1 = specDefsList [] body := by
  intro body text
  show (visitNodes (pySplitlines text) ⟨[], [], [], [], []⟩ body).defs = specDefsList [] body
  have h := (visitNodes_spec (pySplitlines text) body ⟨[], [], [], [], []⟩).1
  simpa using h

/-!  ## Claim theorems: re-index row replacement (C1)  -/

/-- Empty snapshot store (fresh database). -/
def c1_state0 : DbState := ⟨[], [], [], [], [], [], [], [], []⟩

/-- Version 1 of `a.py`: `def g(): pass` (lines 1-2), `def f(): g()`
(lines 3-4). -/
def c1_fileV1 : FileInput :=
  ⟨"a.py", "python", "h1", 1, 10,
   "def g():\n    pass\ndef f():\n    g()\n",
   some [.funcDef false "g" 1 2 [.other []],
         .funcDef false "f" 3 4 [.callNode (.nameNode "g" true 4 4) [] 4]]⟩

/-- Version 2 of `a.py`: the second half deleted, only `def g(): pass`
remains. -/
def c1_fileV2 : FileInput :=
  ⟨"a.py", "python", "h2", 2, 5,
   "def g():\n    pass\n",
   some [.funcDef false "g" 1 2 [.other []]]⟩

/-- Index version 1 into the empty store, then re-index version 2. -/
def c1_run : Option DbState :=
  (indexFileStep 8000 220 40 "w" "r" "t0" c1_state0 c1_fileV1).bind
    (fun p => (indexFileStep 8000 220 40 "w" "r" "t1" p.1 c1_fileV2).map (fun q => q.1))

/-- The id of version 1's symbol `f`, which version 2 no longer defines. -/
def c1_staleId : String := make_symbol_id "w" "r" "a.py" "f" "function" 3 4

/-- C1 (violated by the code): after re-indexing the shrunk file, the call
edge recorded under version 1 — originating from the deleted symbol `f` —
still sits in `py_call_edges`, even though no `py_symbols` row with that id
remains: the edge-delete statement runs *after* the file's `py_symbols` rows
were deleted, so its `IN (SELECT symbol_id FROM py_symbols WHERE
file_path=?)` subquery matches nothing and removes no edge, contradicting
both the claim and the code's own comment ("Remove edges originating from any
symbol in this file"). -/
theorem claim_C1 :
    c1_run.isSome = true ∧
    ∀ st ∈ c1_run,
      (∃ e ∈ st.py_call_edges, e.from_symbol_id = c1_staleId) ∧
      ∀ r ∈ st.py_symbols, r.symbol_id ≠ c1_staleId := by decide

/-!  ## Claim theorems: symbol lookup (C6)  -/

/-- Empty snapshot store (fresh database). -/
def c6_state0 : DbState := ⟨[], [], [], [], [], [], [], [], []⟩

/-- A python file defining `helper` (lines 1-2). -/
def c6_file : FileInput :=
  ⟨"util.py", "python", "h1", 1, 9,
   "def helper():\n    pass\n",
   some [.funcDef false "helper" 1 2 [.other []]]⟩

/-- Index the file into the empty store. -/
def c6_run : Option DbState :=
  (indexFileStep 8000 220 40 "w" "r" "t0" c6_state0 c6_file).map (fun p => p.1)

/-- C6 (violated by the code): after indexing a file that defines `helper`,
the *effective* `symbol_find` (the second definition, which shadows the
spec-conformant first one) returns no rows — it queries the legacy
revision-less `symbols` table, which the indexing pipeline never writes, has
no revision parameter and no `ORDER BY` — while the symbol is present in
`symbols_snap` and the shadowed definition would return it. -/
theorem claim_C6 :
    c6_run.isSome = true ∧
    ∀ st ∈ c6_run,
      symbol_find st "w" "helper" (some "python") none 50 = [] ∧
      (∃ r ∈ st.symbols_snap, r.symbol_name = "helper") ∧
      symbol_find_snap st "w" "helper" none none 50 =
        [⟨"w", "r", "util.py", "helper", "function", 1, 2⟩] := by decide

end MCI
